import Mathlib

/-!
Shallow embedding of the binary-CSP solver in `src/Assignment.py` (class `CSP`
with methods `add_variable`, `get_all_possible_pairs`, `get_all_arcs`,
`get_all_neighboring_arcs`, `add_constraint_one_way`, `backtracking_search`,
`backtrack`, `inference`, `select_unassigned_variable`, `revise`), together
with theorems settling the specification claims about it.

Python dictionaries are modelled as association lists in insertion order with
unique keys; dict indexing that can raise `KeyError` is modelled with `Option`.
In-place list mutation is modelled by threading the updated value, and the
module-level counters `backtrack_call_count` / `failure_count` are threaded as
explicit state through the search.
-/

set_option linter.unusedSectionVars false

section Embedding

variable {V α β : Type} [DecidableEq V] [LinearOrder α]

/-- Association-list lookup: models Python dict indexing `d[k]` (`none` models
a `KeyError`). -/
def lookupA : List (V × β) → V → Option β
  | [], _ => none
  | (k, v) :: t, x => if x = k then some v else lookupA t x

/-- Association-list update: models Python dict assignment `d[k] = v`, which
replaces the value of an existing key in place (keeping its position in
insertion order) and otherwise appends a new entry at the end. -/
def updateA : List (V × β) → V → β → List (V × β)
  | [], x, d => [(x, d)]
  | (k, v) :: t, x, d => if x = k then (x, d) :: t else (k, v) :: updateA t x d

theorem keys_updateA (l : List (V × β)) (x : V) (d : β) :
    ((updateA l x d).map Prod.fst = l.map Prod.fst ∧ x ∈ l.map Prod.fst) ∨
      ((updateA l x d).map Prod.fst = l.map Prod.fst ++ [x] ∧ x ∉ l.map Prod.fst) := by
  induction l with
  | nil => simp [updateA]
  | cons p t ih =>
    obtain ⟨k, v⟩ := p
    by_cases h : x = k
    · subst h
      simp [updateA]
    · rcases ih with ⟨h1, h2⟩ | ⟨h1, h2⟩
      · exact Or.inl (by simp [updateA, h, h1, h2])
      · exact Or.inr (by simp [updateA, h, h1, Ne.symm h, h2])

theorem nodup_updateA {l : List (V × β)} (h : (l.map Prod.fst).Nodup)
    (x : V) (d : β) : ((updateA l x d).map Prod.fst).Nodup := by
  rcases keys_updateA l x d with ⟨h1, _⟩ | ⟨h1, h2⟩
  · rw [h1]; exact h
  · rw [h1]
    exact List.Nodup.append h (List.nodup_singleton x) (by simpa using h2)

theorem lookupA_updateA_self (l : List (V × β)) (x : V) (d : β) :
    lookupA (updateA l x d) x = some d := by
  induction l with
  | nil => simp [lookupA, updateA]
  | cons p t ih =>
    obtain ⟨k, v⟩ := p
    by_cases h : x = k
    · subst h; simp [lookupA, updateA]
    · simp [lookupA, updateA, h, ih]

theorem lookupA_updateA_ne (l : List (V × β)) {x w : V} (d : β) (h : w ≠ x) :
    lookupA (updateA l x d) w = lookupA l w := by
  induction l with
  | nil => simp [lookupA, updateA, h]
  | cons p t ih =>
    obtain ⟨k, v⟩ := p
    by_cases hk : x = k
    · subst hk; simp [lookupA, updateA, h]
    · by_cases hw : w = k <;> simp [lookupA, updateA, hk, hw, ih]

theorem updateA_updateA (l : List (V × β)) (x : V) (d d' : β) :
    updateA (updateA l x d) x d' = updateA l x d' := by
  induction l with
  | nil => simp [updateA]
  | cons p t ih =>
    obtain ⟨k, v⟩ := p
    by_cases h : x = k <;> simp [updateA, h, ih]

theorem updateA_lookupA_self {l : List (V × β)} {x : V} {d : β}
    (h : lookupA l x = some d) : updateA l x d = l := by
  induction l with
  | nil => simp [lookupA] at h
  | cons p t ih =>
    obtain ⟨k, v⟩ := p
    by_cases hk : x = k
    · subst hk
      simp [lookupA] at h
      simp [updateA, h]
    · simp [lookupA, hk] at h
      simp [updateA, hk, ih h]

/-- A Python dict from variable names to domain lists (entries in insertion
order, keys unique), as used for `self.domains` and for the `assignment`
threaded through the search. -/
structure Assign (V α : Type) where
  entries : List (V × List α)
  nodup : (entries.map Prod.fst).Nodup

/-- Dict read `assignment[x]`. -/
def Assign.lookup (a : Assign V α) (x : V) : Option (List α) :=
  lookupA a.entries x

/-- Dict write `assignment[x] = d`. -/
def Assign.update (a : Assign V α) (x : V) (d : List α) : Assign V α :=
  ⟨updateA a.entries x d, nodup_updateA a.nodup x d⟩

@[simp] theorem Assign.update_entries (a : Assign V α) (x : V) (d : List α) :
    (a.update x d).entries = updateA a.entries x d := rfl

@[simp] theorem Assign.lookup_def (a : Assign V α) (x : V) :
    a.lookup x = lookupA a.entries x := rfl

theorem Assign.ext_entries {a b : Assign V α} (h : a.entries = b.entries) :
    a = b := by
  cases a; cases b; simpa using h

/-- The CSP model: `self.variables` (a plain Python list, duplicates possible;
the field is named `vars` because `variables` is a reserved word in Lean),
`self.domains` (a dict of lists) and `self.constraints` (a dict of dicts of
legal-value-pair lists). -/
structure CSP (V α : Type) where
  vars : List V
  domains : Assign V α
  constraints : List (V × List (V × List (α × α)))

/-- `CSP.__init__`: empty variables, domains and constraints. -/
def CSP.init : CSP V α := ⟨[], ⟨[], List.nodup_nil⟩, []⟩

/-- `CSP.add_variable(name, domain)`: appends `name` to `self.variables`,
sets `self.domains[name] = list(domain)` and `self.constraints[name] = {}`. -/
def CSP.add_variable (c : CSP V α) (name : V) (domain : List α) : CSP V α :=
  { vars := c.vars ++ [name]
    domains := c.domains.update name domain
    constraints := updateA c.constraints name [] }

/-- `CSP.get_all_possible_pairs(a, b)`: `itertools.product(a, b)` as a list. -/
def get_all_possible_pairs (a : List α) (b : List β) : List (α × β) :=
  a.flatMap (fun x => b.map (fun y => (x, y)))

/-- `CSP.get_all_arcs()`: `[(i, j) for i in self.constraints for j in
self.constraints[i]]`. -/
def CSP.get_all_arcs (c : CSP V α) : List (V × V) :=
  c.constraints.flatMap (fun p => p.2.map (fun q => (p.1, q.1)))

/-- `CSP.get_all_neighboring_arcs(var)`: `[(i, var) for i in
self.constraints[var]]` (an unregistered `var` would raise a `KeyError` in
Python; that situation is unreachable in the solver flows modelled here, and
is rendered as the empty arc list). -/
def CSP.get_all_neighboring_arcs (c : CSP V α) (var : V) : List (V × V) :=
  match lookupA c.constraints var with
  | none => []
  | some cs => cs.map (fun q => (q.1, var))

/-- `CSP.add_constraint_one_way(i, j, filter_function)`: seeds
`self.constraints[i][j]` with the cross product of the two domains when the
ordered pair has no constraint yet, then filters the legal-pair list through
`filter_function`. `none` models the `KeyError` raised when `i` has never been
added as a variable (for the `self.constraints[i]` read) or when the seeding
branch reads a missing domain. -/
def CSP.add_constraint_one_way (c : CSP V α) (i j : V) (f : α → α → Bool) :
    Option (CSP V α) := do
  let ci ← lookupA c.constraints i
  let existing ← match lookupA ci j with
    | some ps => pure ps
    | none => do
        let di ← c.domains.lookup i
        let dj ← c.domains.lookup j
        pure (get_all_possible_pairs di dj)
  let filtered := existing.filter (fun p => f p.1 p.2)
  pure { c with constraints := updateA c.constraints i (updateA ci j filtered) }


/-- The support test inside `CSP.revise`:
`len(list(filter(lambda y: (x, y) in self.constraints[x_i][x_j],
assignment[x_j])))` is nonzero, i.e. some `y` in the neighbor's domain makes
`(x, y)` a legal pair. The lambda re-reads `assignment[x_j]` on every
evaluation; on a self arc (`x_i == x_j`) that is the live list `l` currently
being revised, otherwise it is the unchanging neighbor domain `dj`. -/
def hasSupport (legal : List (α × α)) (dj : List α) (djSelf : Bool)
    (l : List α) (x : α) : Bool :=
  (if djSelf then l else dj).any (fun y => decide ((x, y) ∈ legal))

/-- The `for i, x in enumerate(assignment[x_i])` loop of `CSP.revise`, which
pops unsupported values from the list it is iterating over. Python's list
iterator tracks positions in the live list, so after `pop(i)` the element that
slides into position `i` is skipped by the `i + 1` step. `l` is the current
list, `i` the iterator position, `rev` the `revised` flag so far. -/
def reviseLoop (legal : List (α × α)) (dj : List α) (djSelf : Bool) :
    List α → Nat → Bool → List α × Bool
  | l, i, rev =>
    if h : i < l.length then
      if hasSupport legal dj djSelf l (l.get ⟨i, h⟩) then
        reviseLoop legal dj djSelf l (i + 1) rev
      else
        reviseLoop legal dj djSelf (l.eraseIdx i) (i + 1) true
    else (l, rev)
  termination_by l i => l.length - i
  decreasing_by
  · omega
  · have h2 : (l.eraseIdx i).length = l.length - 1 := by
      simp [List.length_eraseIdx, h]
    omega

/-- `CSP.revise(assignment, x_i, x_j)`: removes from `assignment[x_i]` the
values found unsupported by the enumerate-and-pop loop above, under the legal
pairs `self.constraints[x_i][x_j]` against `assignment[x_j]`, and returns the
updated assignment together with the `revised` flag. `none` models a
`KeyError`; when `assignment[x_i]` is empty the loop body never runs, so the
constraint and neighbor-domain reads (which sit inside the loop body) are
never evaluated and cannot raise. -/
def CSP.revise (c : CSP V α) (a : Assign V α) (x_i x_j : V) :
    Option (Assign V α × Bool) :=
  match a.lookup x_i with
  | none => none
  | some di =>
    if di.isEmpty then some (a, false)
    else
      match lookupA c.constraints x_i with
      | none => none
      | some ci =>
        match lookupA ci x_j with
        | none => none
        | some legal =>
          match a.lookup x_j with
          | none => none
          | some dj =>
            let r := reviseLoop legal dj (decide (x_i = x_j)) di 0 false
            some (a.update x_i r.1, r.2)

/-- Running the enumerate-and-pop loop only ever removes values: the resulting
list is a sublist of the one it started from. -/
theorem reviseLoop_sublist (legal : List (α × α)) (dj : List α) (s : Bool) :
    ∀ l i rev, ((reviseLoop legal dj s l i rev).1).Sublist l := by
  intro l i rev
  induction l, i, rev using reviseLoop.induct legal dj s with
  | case1 l i rev h hs ih =>
    rw [reviseLoop, dif_pos h, if_pos hs]
    exact ih
  | case2 l i rev h hs ih =>
    rw [reviseLoop, dif_pos h, if_neg hs]
    exact ih.trans (List.eraseIdx_sublist l i)
  | case3 l i rev h =>
    rw [reviseLoop]
    simp [h]

theorem reviseLoop_flag_mono (legal : List (α × α)) (dj : List α) (s : Bool) :
    ∀ l i, (reviseLoop legal dj s l i true).2 = true := by
  have key : ∀ l i rev, rev = true → (reviseLoop legal dj s l i rev).2 = true := by
    intro l i rev
    induction l, i, rev using reviseLoop.induct legal dj s with
    | case1 l i rev h hs ih =>
      intro hr
      rw [reviseLoop, dif_pos h, if_pos hs]
      exact ih hr
    | case2 l i rev h hs ih =>
      intro hr
      rw [reviseLoop, dif_pos h, if_neg hs]
      exact ih rfl
    | case3 l i rev h =>
      intro hr
      rw [reviseLoop]
      simp [h, hr]
  exact fun l i => key l i true rfl

/-- If the loop reports no revision, the list is returned unchanged. -/
theorem reviseLoop_not_revised (legal : List (α × α)) (dj : List α) (s : Bool) :
    ∀ l i rev, (reviseLoop legal dj s l i rev).2 = false →
      (reviseLoop legal dj s l i rev).1 = l := by
  intro l i rev
  induction l, i, rev using reviseLoop.induct legal dj s with
  | case1 l i rev h hs ih =>
    rw [reviseLoop, dif_pos h, if_pos hs]
    exact ih
  | case2 l i rev h hs ih =>
    rw [reviseLoop, dif_pos h, if_neg hs]
    intro hf
    rw [reviseLoop_flag_mono legal dj s (l.eraseIdx i) (i + 1)] at hf
    exact absurd hf (by simp)
  | case3 l i rev h =>
    rw [reviseLoop]
    simp [h]

/-- If the loop starts with the flag down and reports a revision, at least one
value was removed, so the list strictly shrank. -/
theorem reviseLoop_revised_shrinks (legal : List (α × α)) (dj : List α)
    (s : Bool) : ∀ l i rev, (reviseLoop legal dj s l i rev).2 = true →
      rev = false → ((reviseLoop legal dj s l i rev).1).length < l.length := by
  intro l i rev
  induction l, i, rev using reviseLoop.induct legal dj s with
  | case1 l i rev h hs ih =>
    rw [reviseLoop, dif_pos h, if_pos hs]
    exact ih
  | case2 l i rev h hs ih =>
    rw [reviseLoop, dif_pos h, if_neg hs]
    intro _ _
    have hsub := reviseLoop_sublist legal dj s (l.eraseIdx i) (i + 1) true
    have hlen : (l.eraseIdx i).length = l.length - 1 := by
      simp [List.length_eraseIdx, h]
    have := hsub.length_le
    omega
  | case3 l i rev h =>
    rw [reviseLoop]
    simp only [dif_neg h]
    intro h1 h2
    rw [h2] at h1
    exact absurd h1 (by simp)

/-- Total number of domain values across all entries of an assignment;
the measure that makes AC-3 terminate. -/
def totalLen (l : List (V × List α)) : Nat :=
  (l.map (fun p => p.2.length)).sum

theorem totalLen_updateA {l : List (V × List α)} {x : V} {d : List α}
    (h : lookupA l x = some d) (d' : List α) :
    totalLen (updateA l x d') + d.length = totalLen l + d'.length := by
  induction l with
  | nil => simp [lookupA] at h
  | cons p t ih =>
    obtain ⟨k, v⟩ := p
    by_cases hk : x = k
    · subst hk
      simp [lookupA] at h
      subst h
      simp [updateA, totalLen]
      omega
    · simp [lookupA, hk] at h
      have := ih h
      simp [updateA, hk, totalLen] at *
      omega

/-- A successful `revise` with the flag down returns the assignment unchanged;
with the flag up the total domain size strictly decreased. -/
theorem revise_shrink {c : CSP V α} {a a' : Assign V α} {x_i x_j : V}
    {rev : Bool} (h : c.revise a x_i x_j = some (a', rev)) :
    (rev = false → a' = a) ∧
      (rev = true → totalLen a'.entries < totalLen a.entries) := by
  unfold CSP.revise at h
  split at h
  · exact absurd h (by simp)
  · rename_i di hdi
    by_cases he : di.isEmpty
    · rw [if_pos he] at h
      simp at h
      obtain ⟨h1, h2⟩ := h
      constructor
      · intro _; exact h1.symm
      · intro hr; rw [hr] at h2; exact absurd h2 (by simp)
    · rw [if_neg he] at h
      split at h
      · exact absurd h (by simp)
      · rename_i ci hci
        split at h
        · exact absurd h (by simp)
        · rename_i legal hl
          split at h
          · exact absurd h (by simp)
          · rename_i dj hdj
            simp at h
            obtain ⟨ha', hrev⟩ := h
            constructor
            · intro hr
              rw [hr] at hrev
              have hnr := reviseLoop_not_revised legal dj (decide (x_i = x_j))
                di 0 false hrev
              rw [← ha']
              apply Assign.ext_entries
              simp only [Assign.update_entries, hnr]
              exact updateA_lookupA_self hdi
            · intro hr
              rw [hr] at hrev
              have hshr := reviseLoop_revised_shrinks legal dj
                (decide (x_i = x_j)) di 0 false hrev rfl
              rw [← ha']
              have htot := totalLen_updateA hdi
                ((reviseLoop legal dj (decide (x_i = x_j)) di 0 false).1)
              simp only [Assign.update_entries]
              omega

/-- The `while len(queue)` loop of `CSP.inference` (AC-3). Pops the front arc
`(x_j, x_i)`, revises `x_i` against `x_j`; on a revision that emptied the
domain it returns the failure flag `false` together with the assignment as
mutated so far, and on a non-empty revision appends every neighboring arc of
`x_i` not containing `x_j` to the queue (`x_j not in x` on the pair
`x = (k, x_i)`). `none` models a propagated `KeyError`. -/
def inferenceLoop (c : CSP V α) : Assign V α → List (V × V) →
    Option (Assign V α × Bool)
  | a, [] => some (a, true)
  | a, (x_j, x_i) :: q' =>
    match hrev : c.revise a x_i x_j with
    | none => none
    | some (a', revised) =>
      if hr : revised then
        match a'.lookup x_i with
        | none => none
        | some di =>
          if di.isEmpty then some (a', false)
          else
            inferenceLoop c a'
              (q' ++ (c.get_all_neighboring_arcs x_i).filter
                (fun p => decide (x_j ≠ p.1) && decide (x_j ≠ p.2)))
      else inferenceLoop c a' q'
  termination_by a q => (totalLen a.entries, q.length)
  decreasing_by
  · have := (revise_shrink hrev).2 (by simpa using hr)
    exact Prod.Lex.left _ _ this
  · have heq : a' = a := (revise_shrink hrev).1 (by simpa using hr)
    rw [heq]
    exact Prod.Lex.right _ (by simp [List.length_cons])

/-- `CSP.inference(assignment, queue)`: the AC-3 pass. The Boolean result
models Python returning the (mutated) assignment itself on success and `False`
on a domain wipeout; in both cases the assignment component is the state the
caller's dictionary has been mutated into. -/
def CSP.inference (c : CSP V α) (a : Assign V α) (q : List (V × V)) :
    Option (Assign V α × Bool) :=
  inferenceLoop c a q

/-- Unfolding equation: an empty queue succeeds with the assignment as is. -/
theorem inferenceLoop_nil (c : CSP V α) (a : Assign V α) :
    inferenceLoop c a [] = some (a, true) := by
  rw [inferenceLoop]

/-- Unfolding equation: a failing `revise` propagates the exception. -/
theorem inferenceLoop_cons_exc (c : CSP V α) {a : Assign V α} {x_j x_i : V}
    (q' : List (V × V)) (h : c.revise a x_i x_j = none) :
    inferenceLoop c a ((x_j, x_i) :: q') = none := by
  rw [inferenceLoop, h]

/-- Unfolding equation: a revision that emptied the domain returns failure
with the assignment as mutated so far. -/
theorem inferenceLoop_cons_wipe (c : CSP V α) {a a' : Assign V α}
    {x_j x_i : V} (q' : List (V × V)) {dj : List α}
    (h : c.revise a x_i x_j = some (a', true))
    (hdj : a'.lookup x_i = some dj) (he : dj.isEmpty = true) :
    inferenceLoop c a ((x_j, x_i) :: q') = some (a', false) := by
  rw [inferenceLoop, h]
  simp only [hdj, he]
  simp

/-- Unfolding equation: a revision that left the domain non-empty re-enqueues
the neighboring arcs of the target (minus any containing the processed
neighbor) and continues. -/
theorem inferenceLoop_cons_cont (c : CSP V α) {a a' : Assign V α}
    {x_j x_i : V} (q' : List (V × V)) {dj : List α}
    (h : c.revise a x_i x_j = some (a', true))
    (hdj : a'.lookup x_i = some dj) (he : dj.isEmpty = false) :
    inferenceLoop c a ((x_j, x_i) :: q') =
      inferenceLoop c a'
        (q' ++ (c.get_all_neighboring_arcs x_i).filter
          (fun p => decide (x_j ≠ p.1) && decide (x_j ≠ p.2))) := by
  rw [inferenceLoop, h]
  simp only [hdj, he]
  simp

/-- Unfolding equation: a non-revising arc is dropped and the loop continues. -/
theorem inferenceLoop_cons_norev (c : CSP V α) {a a' : Assign V α}
    {x_j x_i : V} (q' : List (V × V))
    (h : c.revise a x_i x_j = some (a', false)) :
    inferenceLoop c a ((x_j, x_i) :: q') = inferenceLoop c a' q' := by
  rw [inferenceLoop, h]
  simp

/-- Entrywise shrinking of assignments: same keys in the same positions, each
domain a sublist of what it was. -/
def entShrink (p q : V × List α) : Prop := p.1 = q.1 ∧ p.2.Sublist q.2

theorem entShrink_refl (l : List (V × List α)) : List.Forall₂ entShrink l l := by
  induction l with
  | nil => exact List.Forall₂.nil
  | cons p t ih => exact List.Forall₂.cons ⟨rfl, List.Sublist.refl _⟩ ih

theorem entShrink_trans {l1 l2 l3 : List (V × List α)}
    (h12 : List.Forall₂ entShrink l1 l2) (h23 : List.Forall₂ entShrink l2 l3) :
    List.Forall₂ entShrink l1 l3 := by
  induction h12 generalizing l3 with
  | nil => cases h23; exact List.Forall₂.nil
  | cons h t ih =>
    cases h23 with
    | cons h' t' =>
      exact List.Forall₂.cons ⟨h.1.trans h'.1, h.2.trans h'.2⟩ (ih t')

theorem entShrink_updateA {l : List (V × List α)} {x : V} {d : List α}
    (hl : lookupA l x = some d) {d' : List α} (hs : d'.Sublist d) :
    List.Forall₂ entShrink (updateA l x d') l := by
  induction l with
  | nil => simp [lookupA] at hl
  | cons p t ih =>
    obtain ⟨k, v⟩ := p
    by_cases hk : x = k
    · subst hk
      simp [lookupA] at hl
      subst hl
      simp only [updateA, if_pos rfl]
      exact List.Forall₂.cons ⟨rfl, hs⟩ (entShrink_refl t)
    · simp [lookupA, hk] at hl
      simp only [updateA, if_neg hk]
      exact List.Forall₂.cons ⟨rfl, List.Sublist.refl _⟩ (ih hl)

/-- A successful `revise` only removes domain values, entrywise. -/
theorem revise_entShrink {c : CSP V α} {a a' : Assign V α} {x_i x_j : V}
    {rev : Bool} (h : c.revise a x_i x_j = some (a', rev)) :
    List.Forall₂ entShrink a'.entries a.entries := by
  unfold CSP.revise at h
  split at h
  · exact absurd h (by simp)
  · rename_i di hdi
    by_cases he : di.isEmpty
    · rw [if_pos he] at h
      simp at h
      rw [← h.1]
      exact entShrink_refl _
    · rw [if_neg he] at h
      split at h
      · exact absurd h (by simp)
      · rename_i ci hci
        split at h
        · exact absurd h (by simp)
        · rename_i legal hl
          split at h
          · exact absurd h (by simp)
          · rename_i dj hdj
            simp at h
            rw [← h.1]
            simp only [Assign.update_entries]
            exact entShrink_updateA hdi
              (reviseLoop_sublist legal dj (decide (x_i = x_j)) di 0 false)

/-- A completed AC-3 loop (success or wipeout failure alike) only removes
domain values, entrywise. -/
theorem inferenceLoop_entShrink {c : CSP V α} :
    ∀ {a : Assign V α} {q : List (V × V)} {a2 : Assign V α} {ok : Bool},
      inferenceLoop c a q = some (a2, ok) →
      List.Forall₂ entShrink a2.entries a.entries := by
  intro a q
  induction a, q using inferenceLoop.induct c with
  | case1 a =>
    intro a2 ok h
    rw [inferenceLoop_nil] at h
    simp at h
    rw [← h.1]
    exact entShrink_refl _
  | case2 a x_j x_i q' hrev =>
    intro a2 ok h
    rw [inferenceLoop_cons_exc c q' hrev] at h
    exact absurd h (by simp)
  | case3 a x_j x_i q' a' hdj hrev =>
    intro a2 ok h
    rw [inferenceLoop, hrev] at h
    simp only [hdj] at h
    exact absurd h (by simp)
  | case4 a x_j x_i q' a' dj hdj he hrev =>
    intro a2 ok h
    rw [inferenceLoop_cons_wipe c q' hrev hdj he] at h
    simp at h
    rw [← h.1]
    exact revise_entShrink hrev
  | case5 a x_j x_i q' a' dj hdj he hrev ih =>
    intro a2 ok h
    rw [inferenceLoop_cons_cont c q' hrev hdj (by simpa using he)] at h
    exact entShrink_trans (ih h) (revise_entShrink hrev)
  | case6 a x_j x_i q' a' revised hrev hr ih =>
    intro a2 ok h
    have hrev' : c.revise a x_i x_j = some (a', false) := by
      cases revised
      · exact hrev
      · exact absurd rfl hr
    rw [inferenceLoop_cons_norev c q' hrev'] at h
    exact entShrink_trans (ih h) (revise_entShrink hrev')

/-- Does this entry still have more than one candidate value? -/
def isMulti (p : V × List α) : Bool := decide (1 < p.2.length)

/-- `isMulti`, but never counting the entry of `key`. -/
def isMultiEx (key : V) (p : V × List α) : Bool :=
  decide (p.1 ≠ key) && isMulti p

/-- `isMulti` restricted to the entry of `key`. -/
def isKeyMulti (key : V) (p : V × List α) : Bool :=
  decide (p.1 = key) && isMulti p

/-- Number of entries whose domain still has more than one value (the
"unassigned" variables); the measure that makes the backtracking search
terminate. -/
def multiCount (l : List (V × List α)) : Nat := l.countP isMulti

/-- Same count, ignoring the entry of `key`. -/
def multiCountEx (key : V) (l : List (V × List α)) : Nat :=
  l.countP (isMultiEx key)

theorem multiCount_le_of_entShrink {l2 l : List (V × List α)}
    (h : List.Forall₂ entShrink l2 l) : multiCount l2 ≤ multiCount l := by
  induction h with
  | nil => exact Nat.le_refl _
  | cons hpq t ih =>
    rename_i p q l2t lt
    simp only [multiCount, List.countP_cons] at ih ⊢
    have hlen := hpq.2.length_le
    have hstep : (if isMulti p = true then 1 else 0) ≤
        (if isMulti q = true then 1 else 0) := by
      by_cases h2 : 1 < p.2.length
      · have hp1 : isMulti p = true := by simp [isMulti, h2]
        have hq1 : isMulti q = true := by
          simp [isMulti, lt_of_lt_of_le h2 hlen]
        simp [hp1, hq1]
      · have hp1 : isMulti p = false := by simp [isMulti, h2]
        simp [hp1]
    exact Nat.add_le_add ih hstep

theorem multiCountEx_le_of_entShrink (key : V) {l2 l : List (V × List α)}
    (h : List.Forall₂ entShrink l2 l) :
    multiCountEx key l2 ≤ multiCountEx key l := by
  induction h with
  | nil => exact Nat.le_refl _
  | cons hpq t ih =>
    rename_i p q l2t lt
    simp only [multiCountEx, List.countP_cons] at ih ⊢
    have hlen := hpq.2.length_le
    have hstep : (if isMultiEx key p = true then 1 else 0) ≤
        (if isMultiEx key q = true then 1 else 0) := by
      by_cases h2 : p.1 ≠ key ∧ 1 < p.2.length
      · have hp1 : isMultiEx key p = true := by
          simp [isMultiEx, isMulti, h2.1, h2.2]
        have hq1 : isMultiEx key q = true := by
          simp [isMultiEx, isMulti, hpq.1 ▸ h2.1, lt_of_lt_of_le h2.2 hlen]
        simp [hp1, hq1]
      · have hp1 : isMultiEx key p = false := by
          rcases not_and_or.mp h2 with hc | hc
          · simp [isMultiEx, Decidable.not_not.mp hc]
          · simp [isMultiEx, isMulti, hc]
        simp [hp1]
    exact Nat.add_le_add ih hstep

theorem multiCountEx_updateA_self (key : V) (l : List (V × List α))
    (d : List α) : multiCountEx key (updateA l key d) = multiCountEx key l := by
  induction l with
  | nil => simp [multiCountEx, updateA, List.countP_cons, isMultiEx]
  | cons q t ih =>
    obtain ⟨k, v⟩ := q
    by_cases hk : key = k
    · subst hk
      simp [updateA, multiCountEx, List.countP_cons, isMultiEx]
    · simp only [updateA, if_neg hk, multiCountEx, List.countP_cons] at ih ⊢
      omega

theorem multiCountEx_eq_multiCount {l : List (V × List α)} {key : V}
    (h : key ∉ l.map Prod.fst) : multiCountEx key l = multiCount l := by
  induction l with
  | nil => rfl
  | cons q t ih =>
    simp only [List.map_cons, List.mem_cons] at h
    push_neg at h
    have hne : q.1 ≠ key := fun hc => h.1 (hc ▸ rfl)
    have hhead : isMultiEx key q = isMulti q := by simp [isMultiEx, hne]
    simp only [multiCount, multiCountEx, List.countP_cons] at ih ⊢
    rw [ih h.2, hhead]

theorem multiCount_updateA_singleton {l : List (V × List α)}
    (hnd : (l.map Prod.fst).Nodup) (key : V) {d : List α}
    (hd : ¬ 1 < d.length) :
    multiCount (updateA l key d) = multiCountEx key l := by
  induction l with
  | nil => simp [multiCount, multiCountEx, updateA, List.countP_cons,
      isMulti, hd]
  | cons q t ih =>
    obtain ⟨k, v⟩ := q
    simp only [List.map_cons, List.nodup_cons] at hnd
    by_cases hk : key = k
    · subst hk
      have hupd : updateA ((key, v) :: t) key d = (key, d) :: t := by
        simp [updateA]
      rw [hupd]
      have ht : multiCountEx key t = multiCount t :=
        multiCountEx_eq_multiCount hnd.1
      show List.countP isMulti ((key, d) :: t) =
        List.countP (isMultiEx key) ((key, v) :: t)
      rw [List.countP_cons, List.countP_cons]
      have hhead1 : isMulti ((key, d) : V × List α) = false := by
        simp [isMulti, hd]
      have hhead2 : isMultiEx key ((key, v) : V × List α) = false := by
        simp [isMultiEx]
      rw [hhead1, hhead2]
      simp only [multiCountEx, multiCount] at ht
      simp [ht]
    · have hne : k ≠ key := Ne.symm hk
      have hhead : isMultiEx key ((k, v) : V × List α) = isMulti (k, v) := by
        simp [isMultiEx, hne]
      have ht := ih hnd.2
      simp only [updateA, if_neg hk, multiCount, multiCountEx,
        List.countP_cons, hhead] at ht ⊢
      omega

theorem multiCount_split (key : V) (l : List (V × List α)) :
    multiCount l = multiCountEx key l + l.countP (isKeyMulti key) := by
  induction l with
  | nil => rfl
  | cons q t ih =>
    simp only [multiCount, multiCountEx, List.countP_cons] at ih ⊢
    have hsplit : (if isMulti q = true then 1 else 0) =
        (if isMultiEx key q = true then 1 else 0) +
          (if isKeyMulti key q = true then 1 else 0) := by
      by_cases hk : q.1 = key <;> by_cases hm : isMulti q = true <;>
        simp [isMultiEx, isKeyMulti, hk, hm]
    omega

theorem countP_key_one {l : List (V × List α)} (hnd : (l.map Prod.fst).Nodup)
    {key : V} {v : List α} (hmem : (key, v) ∈ l) (hv : 1 < v.length) :
    l.countP (isKeyMulti key) = 1 := by
  induction l with
  | nil => simp at hmem
  | cons q t ih =>
    simp only [List.map_cons, List.nodup_cons] at hnd
    rcases List.mem_cons.mp hmem with heq | hmemt
    · rw [← heq] at hnd ⊢
      rw [List.countP_cons]
      have hhead : isKeyMulti key ((key, v) : V × List α) = true := by
        simp [isKeyMulti, isMulti, hv]
      have hzero : t.countP (isKeyMulti key) = 0 := by
        rw [List.countP_eq_zero]
        intro p hp
        have hnd1 : key ∉ t.map Prod.fst := hnd.1
        have hpk : p.1 ≠ key := by
          intro hc
          apply hnd1
          rw [← hc]
          exact List.mem_map_of_mem Prod.fst hp
        simp [isKeyMulti, hpk]
      simp [hzero, hhead]
    · have hkmem : key ∈ t.map Prod.fst :=
        List.mem_map_of_mem Prod.fst hmemt
      have hne : q.1 ≠ key := fun hc => hnd.1 (hc ▸ hkmem)
      rw [List.countP_cons]
      have hhead : isKeyMulti key q = false := by simp [isKeyMulti, hne]
      simp [hhead]
      exact ih hnd.2 hmemt

/-- `CSP.select_unassigned_variable(assignment)`:
`list(filter(lambda key: len(assignment[key]) > 1, assignment.keys()))[0]`,
the first dict key whose domain has more than one value; since dict keys are
unique, filtering the keys coincides with filtering the entries. `none` models
the `IndexError` raised by `[0]` when no such key exists. -/
def select_unassigned_variable (a : Assign V α) : Option V :=
  ((a.entries.filter (fun p => decide (1 < p.2.length))).head?).map Prod.fst

/-- A selected variable is an entry with more than one value, so by key
uniqueness the unassigned count splits off exactly one for it. -/
theorem select_some_mc {a : Assign V α} {key : V}
    (h : select_unassigned_variable a = some key) :
    multiCount a.entries = multiCountEx key a.entries + 1 := by
  unfold select_unassigned_variable at h
  cases hf : a.entries.filter (fun p => decide (1 < p.2.length)) with
  | nil => rw [hf] at h; simp at h
  | cons q t =>
    rw [hf] at h
    simp only [List.head?_cons, Option.map_some] at h
    have hq : q ∈ a.entries.filter (fun p => decide (1 < p.2.length)) := by
      rw [hf]; exact List.mem_cons_self q t
    rw [List.mem_filter] at hq
    obtain ⟨hmem, hpred⟩ := hq
    have hlen : 1 < q.2.length := by simpa using hpred
    obtain ⟨k, v⟩ := q
    injection h with h
    subst h
    rw [multiCount_split k, countP_key_one a.nodup hmem hlen]

/-- Insertion into a sorted list, ascending. -/
def insertSorted (x : α) : List α → List α
  | [] => [x]
  | y :: t => if x ≤ y then x :: y :: t else y :: insertSorted x t

/-- `var.sort()`: Python's in-place ascending sort, modelled as insertion
sort (a stable sort; it agrees with Python's stable sort for the value lists
that occur here). -/
def listSort : List α → List α
  | [] => []
  | x :: t => insertSorted x (listSort t)

/-- The value returned by `CSP.backtrack` in Python: an uncaught exception
(`IndexError` from `select_unassigned_variable`, or a `KeyError` from inside
`inference`), the explicit failure value `False`, or a found assignment. -/
inductive SearchResult (V α : Type) where
  | exc : SearchResult V α
  | failure : SearchResult V α
  | found : Assign V α → SearchResult V α

/-- Combined measure facts about the forward-checking call in the search loop:
the number of unassigned variables drops below the loop measure, and the
loop measure itself never grows along the threaded state. -/
theorem inference_mc {c : CSP V α} {s s2 : Assign V α} {key : V} {v : α}
    {ok : Bool} (hinf : c.inference (s.update key [v])
      (c.get_all_neighboring_arcs key) = some (s2, ok)) :
    multiCount s2.entries ≤ multiCountEx key s.entries ∧
      multiCountEx key s2.entries ≤ multiCountEx key s.entries := by
  have hsh : List.Forall₂ entShrink s2.entries (s.update key [v]).entries :=
    inferenceLoop_entShrink hinf
  constructor
  · have h2 := multiCount_le_of_entShrink hsh
    have h3 : multiCount (updateA s.entries key [v]) =
        multiCountEx key s.entries :=
      multiCount_updateA_singleton s.nodup key (by simp)
    simp only [Assign.update_entries] at h2
    omega
  · have h2 := multiCountEx_le_of_entShrink key hsh
    have h3 : multiCountEx key (updateA s.entries key [v]) =
        multiCountEx key s.entries :=
      multiCountEx_updateA_self key s.entries [v]
    simp only [Assign.update_entries] at h2
    omega

mutual

/-- `CSP.backtrack(assignment)`: increments `backtrack_call_count`, deep-copies
the assignment (`ass2 = copy.deepcopy(assignment)` is the identity under value
semantics), returns it if every domain is a single value, otherwise selects
the first unassigned variable (an `IndexError` there is the `exc` result),
sorts its candidate values in place and iterates over them via the loop
embedded as `tryValues`. The counters are threaded explicitly in place of the
module-level globals. -/
def CSP.backtrack (c : CSP V α) (a : Assign V α) (bc fc : Nat) :
    SearchResult V α × Nat × Nat :=
  if a.entries.all (fun p => p.2.length == 1) then
    (SearchResult.found a, bc + 1, fc)
  else
    match hsel : select_unassigned_variable a with
    | none => (SearchResult.exc, bc + 1, fc)
    | some key =>
      match a.lookup key with
      | none => (SearchResult.exc, bc + 1, fc)
      | some var => tryValues c key (listSort var) a (bc + 1) fc
  termination_by (multiCount a.entries, 1, 0)
  decreasing_by
  · rw [select_some_mc hsel]
    exact Prod.Lex.right _ (Prod.Lex.left _ _ Nat.zero_lt_one)

/-- The `for value in var` loop of `CSP.backtrack`: sets `ass2[key]` to the
singleton `[value]`, runs AC-3 seeded with the arcs neighboring `key`
(mutating `ass2` in place, which the loop threads on to the next iteration),
recurses on success, propagates a found solution, and on exhaustion increments
`failure_count` and returns the failure value. -/
def tryValues (c : CSP V α) (key : V) (vs : List α) (s : Assign V α)
    (bc fc : Nat) : SearchResult V α × Nat × Nat :=
  match vs with
  | [] => (SearchResult.failure, bc, fc + 1)
  | v :: rest =>
    match hinf : c.inference (s.update key [v])
        (c.get_all_neighboring_arcs key) with
    | none => (SearchResult.exc, bc, fc)
    | some (s2, ok) =>
      if ok then
        match c.backtrack s2 bc fc with
        | (SearchResult.found r, bc2, fc2) => (SearchResult.found r, bc2, fc2)
        | (SearchResult.exc, bc2, fc2) => (SearchResult.exc, bc2, fc2)
        | (SearchResult.failure, bc2, fc2) => tryValues c key rest s2 bc2 fc2
      else tryValues c key rest s2 bc fc
  termination_by (multiCountEx key s.entries + 1, 0, vs.length)
  decreasing_by
  · have hm := inference_mc hinf
    omega
  · have hm := inference_mc hinf
    rcases Nat.lt_or_ge (multiCountEx key s2.entries)
        (multiCountEx key s.entries) with hlt | hge
    · exact Prod.Lex.left _ _ (by omega)
    · have heq : multiCountEx key s2.entries = multiCountEx key s.entries := by
        omega
      rw [heq]
      exact Prod.Lex.right _ (Prod.Lex.right _ (by simp))
  · have hm := inference_mc hinf
    rcases Nat.lt_or_ge (multiCountEx key s2.entries)
        (multiCountEx key s.entries) with hlt | hge
    · exact Prod.Lex.left _ _ (by omega)
    · have heq : multiCountEx key s2.entries = multiCountEx key s.entries := by
        omega
      rw [heq]
      exact Prod.Lex.right _ (Prod.Lex.right _ (by simp))
end

/-- `CSP.backtracking_search()`: deep-copies `self.domains`, runs the AC-3
pre-pass over all arcs — discarding its result but keeping the mutations —
and calls `backtrack` on whatever assignment that left behind. The counter
arguments model the module-level globals at the time of the call. -/
def CSP.backtracking_search (c : CSP V α) (bc fc : Nat) :
    SearchResult V α × Nat × Nat :=
  match c.inference c.domains c.get_all_arcs with
  | none => (SearchResult.exc, bc, fc)
  | some (a1, _ok) => c.backtrack a1 bc fc

/-- Unfolding equation: the goal test fires when every domain is a single
value. -/
theorem backtrack_goal (c : CSP V α) {a : Assign V α} (bc fc : Nat)
    (hall : (a.entries.all fun p => p.2.length == 1) = true) :
    c.backtrack a bc fc = (SearchResult.found a, bc + 1, fc) := by
  rw [CSP.backtrack, if_pos hall]

/-- Unfolding equation: with no variable left to select, Python raises an
`IndexError` inside `select_unassigned_variable`. -/
theorem backtrack_sel_exc (c : CSP V α) {a : Assign V α} (bc fc : Nat)
    (hall : ¬ (a.entries.all fun p => p.2.length == 1) = true)
    (hsel : select_unassigned_variable a = none) :
    c.backtrack a bc fc = (SearchResult.exc, bc + 1, fc) := by
  rw [CSP.backtrack, if_neg hall, hsel]

/-- Unfolding equation: a selected variable hands its sorted candidate list
to the value loop. -/
theorem backtrack_step (c : CSP V α) {a : Assign V α} (bc fc : Nat)
    (hall : ¬ (a.entries.all fun p => p.2.length == 1) = true)
    {key : V} (hsel : select_unassigned_variable a = some key)
    {var : List α} (hvar : a.lookup key = some var) :
    c.backtrack a bc fc = tryValues c key (listSort var) a (bc + 1) fc := by
  rw [CSP.backtrack, if_neg hall, hsel]
  simp only [hvar]

/-- Unfolding equation: value exhaustion increments the failure counter and
returns the failure value. -/
theorem tryValues_nil (c : CSP V α) (key : V) (s : Assign V α) (bc fc : Nat) :
    tryValues c key [] s bc fc = (SearchResult.failure, bc, fc + 1) := by
  rw [tryValues]

/-- Unfolding equation: a `KeyError` inside the forward-checking AC-3 call
propagates out of the loop. -/
theorem tryValues_exc (c : CSP V α) (key : V) {v : α} (vs : List α)
    {s : Assign V α} (bc fc : Nat)
    (hinf : c.inference (s.update key [v])
      (c.get_all_neighboring_arcs key) = none) :
    tryValues c key (v :: vs) s bc fc = (SearchResult.exc, bc, fc) := by
  rw [tryValues, hinf]

/-- Unfolding equation: a successful forward-checking call recurses into
`backtrack` on the narrowed state. -/
theorem tryValues_ok (c : CSP V α) (key : V) {v : α} (vs : List α)
    {s s2 : Assign V α} (bc fc : Nat)
    (hinf : c.inference (s.update key [v])
      (c.get_all_neighboring_arcs key) = some (s2, true)) :
    tryValues c key (v :: vs) s bc fc =
      match c.backtrack s2 bc fc with
      | (SearchResult.found r, bc2, fc2) => (SearchResult.found r, bc2, fc2)
      | (SearchResult.exc, bc2, fc2) => (SearchResult.exc, bc2, fc2)
      | (SearchResult.failure, bc2, fc2) => tryValues c key vs s2 bc2 fc2 := by
  rw [tryValues, hinf]
  simp

/-- Unfolding equation: a failed forward-checking call moves on to the next
candidate value, keeping the state the failed AC-3 run left behind. -/
theorem tryValues_fail (c : CSP V α) (key : V) {v : α} (vs : List α)
    {s s2 : Assign V α} (bc fc : Nat)
    (hinf : c.inference (s.update key [v])
      (c.get_all_neighboring_arcs key) = some (s2, false)) :
    tryValues c key (v :: vs) s bc fc = tryValues c key vs s2 bc fc := by
  rw [tryValues, hinf]
  simp

/-- Overwriting the same key twice keeps only the second write. -/
theorem Assign.update_update (a : Assign V α) (x : V) (d d' : List α) :
    (a.update x d).update x d' = a.update x d' :=
  Assign.ext_entries (updateA_updateA a.entries x d d')

/-- A successful `revise` changes the assignment at most at the revised
variable: overwriting that variable afterwards erases any difference. -/
theorem revise_update_frame {c : CSP V α} {a a' : Assign V α} {x_i x_j : V}
    {rev : Bool} (h : c.revise a x_i x_j = some (a', rev)) :
    ∀ d, a'.update x_i d = a.update x_i d := by
  unfold CSP.revise at h
  split at h
  · exact absurd h (by simp)
  · rename_i di hdi
    by_cases he : di.isEmpty
    · rw [if_pos he] at h
      simp at h
      rw [← h.1]
      intro d
      rfl
    · rw [if_neg he] at h
      split at h
      · exact absurd h (by simp)
      · split at h
        · exact absurd h (by simp)
        · split at h
          · exact absurd h (by simp)
          · simp at h
            rw [← h.1]
            intro d
            exact Assign.update_update a x_i _ d

/-- Every arc produced by `get_all_neighboring_arcs var` points into `var`. -/
theorem neighboring_arcs_target (c : CSP V α) (var : V) :
    ∀ p ∈ c.get_all_neighboring_arcs var, p.2 = var := by
  unfold CSP.get_all_neighboring_arcs
  split
  · intro p hp
    simp at hp
  · intro p hp
    simp at hp
    obtain ⟨x, _, hx⟩ := hp
    rw [← hx]

/-- Frame property of the AC-3 loop: when every queued arc targets `key`,
the loop (and everything it re-enqueues) only ever revises `key`, so the
final assignment differs from the initial one at most at `key`. -/
theorem inferenceLoop_frame {c : CSP V α} (key : V) :
    ∀ {a : Assign V α} {q : List (V × V)} {a2 : Assign V α} {ok : Bool},
      (∀ p ∈ q, p.2 = key) → inferenceLoop c a q = some (a2, ok) →
      ∀ d, a2.update key d = a.update key d := by
  intro a q
  induction a, q using inferenceLoop.induct c with
  | case1 a =>
    intro a2 ok htgt h
    rw [inferenceLoop_nil] at h
    simp at h
    rw [← h.1]
    intro d
    rfl
  | case2 a x_j x_i q' hrev =>
    intro a2 ok htgt h
    rw [inferenceLoop_cons_exc c q' hrev] at h
    exact absurd h (by simp)
  | case3 a x_j x_i q' a' hdj hrev =>
    intro a2 ok htgt h
    rw [inferenceLoop, hrev] at h
    simp only [hdj] at h
    exact absurd h (by simp)
  | case4 a x_j x_i q' a' dj hdj he hrev =>
    intro a2 ok htgt h
    rw [inferenceLoop_cons_wipe c q' hrev hdj he] at h
    simp at h
    rw [← h.1]
    have hx_i : x_i = key := htgt (x_j, x_i) (List.mem_cons_self _ _)
    rw [← hx_i]
    exact revise_update_frame hrev
  | case5 a x_j x_i q' a' dj hdj he hrev ih =>
    intro a2 ok htgt h
    rw [inferenceLoop_cons_cont c q' hrev hdj (by simpa using he)] at h
    have hx_i : x_i = key := htgt (x_j, x_i) (List.mem_cons_self _ _)
    have htgt' : ∀ p ∈ q' ++ (c.get_all_neighboring_arcs x_i).filter
        (fun p => decide (x_j ≠ p.1) && decide (x_j ≠ p.2)), p.2 = key := by
      intro p hp
      rcases List.mem_append.mp hp with hp | hp
      · exact htgt p (List.mem_cons_of_mem _ hp)
      · have := neighboring_arcs_target c x_i p (List.mem_of_mem_filter hp)
        rw [this, hx_i]
    intro d
    rw [ih htgt' h d]
    rw [← hx_i] at *
    exact revise_update_frame hrev d
  | case6 a x_j x_i q' a' revised hrev hr ih =>
    intro a2 ok htgt h
    have hrev' : c.revise a x_i x_j = some (a', false) := by
      cases revised
      · exact hrev
      · exact absurd rfl hr
    rw [inferenceLoop_cons_norev c q' hrev'] at h
    have htgt' : ∀ p ∈ q', p.2 = key :=
      fun p hp => htgt p (List.mem_cons_of_mem _ hp)
    intro d
    rw [ih htgt' h d]
    have hx_i : x_i = key := htgt (x_j, x_i) (List.mem_cons_self _ _)
    rw [← hx_i] at *
    exact revise_update_frame hrev' d

/-- Unfolding equation: a selected variable missing from the assignment dict
would raise a `KeyError` at `ass2[key]`. -/
theorem backtrack_lookup_exc (c : CSP V α) {a : Assign V α} (bc fc : Nat)
    (hall : ¬ (a.entries.all fun p => p.2.length == 1) = true)
    {key : V} (hsel : select_unassigned_variable a = some key)
    (hvar : a.lookup key = none) :
    c.backtrack a bc fc = (SearchResult.exc, bc + 1, fc) := by
  rw [CSP.backtrack, if_neg hall, hsel]
  simp only [hvar]

/-- The AC-3 loop body with an explicit fuel budget: `none` means the budget
ran out before the loop finished, `some r` that the loop finished with result
`r` (`r` itself being the exception/failure/success value of `inference`). -/
def inferenceFuel (c : CSP V α) : Nat → Assign V α → List (V × V) →
    Option (Option (Assign V α × Bool))
  | 0, _, _ => none
  | fuel + 1, a, q =>
    match q with
    | [] => some (some (a, true))
    | (x_j, x_i) :: q' =>
      match c.revise a x_i x_j with
      | none => some none
      | some (a', revised) =>
        if revised then
          match a'.lookup x_i with
          | none => some none
          | some di =>
            if di.isEmpty then some (some (a', false))
            else inferenceFuel c fuel a'
              (q' ++ (c.get_all_neighboring_arcs x_i).filter
                (fun p => decide (x_j ≠ p.1) && decide (x_j ≠ p.2)))
        else inferenceFuel c fuel a' q'

/-- When the AC-3 loop returns the failure flag, the assignment it hands back
contains a variable whose domain has been emptied. -/
theorem inferenceLoop_false_empty {c : CSP V α} :
    ∀ {a : Assign V α} {q : List (V × V)} {a2 : Assign V α},
      inferenceLoop c a q = some (a2, false) →
      ∃ v, a2.lookup v = some [] := by
  intro a q
  induction a, q using inferenceLoop.induct c with
  | case1 a =>
    intro a2 h
    rw [inferenceLoop_nil] at h
    simp at h
  | case2 a x_j x_i q' hrev =>
    intro a2 h
    rw [inferenceLoop_cons_exc c q' hrev] at h
    exact absurd h (by simp)
  | case3 a x_j x_i q' a' hdj hrev =>
    intro a2 h
    rw [inferenceLoop, hrev] at h
    simp only [hdj] at h
    exact absurd h (by simp)
  | case4 a x_j x_i q' a' dj hdj he hrev =>
    intro a2 h
    rw [inferenceLoop_cons_wipe c q' hrev hdj he] at h
    simp at h
    refine ⟨x_i, ?_⟩
    rw [← h, hdj]
    simp at he
    rw [he]
  | case5 a x_j x_i q' a' dj hdj he hrev ih =>
    intro a2 h
    rw [inferenceLoop_cons_cont c q' hrev hdj (by simpa using he)] at h
    exact ih h
  | case6 a x_j x_i q' a' revised hrev hr ih =>
    intro a2 h
    have hrev' : c.revise a x_i x_j = some (a', false) := by
      cases revised
      · exact hrev
      · exact absurd rfl hr
    rw [inferenceLoop_cons_norev c q' hrev'] at h
    exact ih h

/-- The counter-shift property for `backtrack`: starting the call with the
global counters shifted shifts the reported counters by the same amount and
changes nothing else. -/
def btShift (c : CSP V α) (a : Assign V α) (bc fc : Nat) : Prop :=
  ∀ b2 f2, c.backtrack a (bc + b2) (fc + f2) =
    ((c.backtrack a bc fc).1, (c.backtrack a bc fc).2.1 + b2,
      (c.backtrack a bc fc).2.2 + f2)

/-- The counter-shift property for the candidate-value loop. -/
def tvShift (c : CSP V α) (key : V) (vs : List α) (s : Assign V α)
    (bc fc : Nat) : Prop :=
  ∀ b2 f2, tryValues c key vs s (bc + b2) (fc + f2) =
    ((tryValues c key vs s bc fc).1, (tryValues c key vs s bc fc).2.1 + b2,
      (tryValues c key vs s bc fc).2.2 + f2)

/-- The search threads the two counters purely additively: shifting the
globals at entry shifts all reported totals and affects nothing else
(the search path never reads the counters). -/
theorem search_counter_shift (c : CSP V α) :
    (∀ (a : Assign V α) (bc fc : Nat), btShift c a bc fc) ∧
      (∀ (key : V) (vs : List α) (s : Assign V α) (bc fc : Nat),
        tvShift c key vs s bc fc) := by
  have h1 : ∀ (a : Assign V α) (bc fc : Nat),
      (a.entries.all fun p => p.2.length == 1) = true → btShift c a bc fc := by
    intro a bc fc hall b2 f2
    rw [backtrack_goal c _ _ hall, backtrack_goal c _ _ hall]
    simp
    omega
  have h2 : ∀ (a : Assign V α) (bc fc : Nat),
      ¬ (a.entries.all fun p => p.2.length == 1) = true →
      select_unassigned_variable a = none → btShift c a bc fc := by
    intro a bc fc hall hsel b2 f2
    rw [backtrack_sel_exc c _ _ hall hsel, backtrack_sel_exc c _ _ hall hsel]
    simp
    omega
  have h3 : ∀ (a : Assign V α) (bc fc : Nat),
      ¬ (a.entries.all fun p => p.2.length == 1) = true →
      ∀ (key : V), select_unassigned_variable a = some key →
      a.lookup key = none → btShift c a bc fc := by
    intro a bc fc hall key hsel hvar b2 f2
    rw [backtrack_lookup_exc c _ _ hall hsel hvar,
      backtrack_lookup_exc c _ _ hall hsel hvar]
    simp
    omega
  have h4 : ∀ (a : Assign V α) (bc fc : Nat),
      ¬ (a.entries.all fun p => p.2.length == 1) = true →
      ∀ (key : V), select_unassigned_variable a = some key →
      ∀ (dj : List α), a.lookup key = some dj →
      tvShift c key (listSort dj) a (bc + 1) fc → btShift c a bc fc := by
    intro a bc fc hall key hsel dj hvar ih b2 f2
    rw [backtrack_step c _ _ hall hsel hvar,
      backtrack_step c _ _ hall hsel hvar]
    have harith : bc + b2 + 1 = (bc + 1) + b2 := by omega
    rw [harith]
    exact ih b2 f2
  have h5 : ∀ (key : V) (s : Assign V α) (bc fc : Nat),
      tvShift c key [] s bc fc := by
    intro key s bc fc b2 f2
    rw [tryValues_nil, tryValues_nil]
    simp
    omega
  have h6 : ∀ (key : V) (s : Assign V α) (bc fc : Nat) (y : α) (t : List α),
      c.inference (s.update key [y]) (c.get_all_neighboring_arcs key) = none →
      tvShift c key (y :: t) s bc fc := by
    intro key s bc fc y t hinf b2 f2
    rw [tryValues_exc c key t _ _ hinf, tryValues_exc c key t _ _ hinf]
  have h7 : ∀ (key : V) (s : Assign V α) (bc fc : Nat) (y : α) (t : List α)
      (a' r : Assign V α) (bc2 fc2 : Nat),
      c.backtrack a' bc fc = (SearchResult.found r, bc2, fc2) →
      c.inference (s.update key [y]) (c.get_all_neighboring_arcs key) =
        some (a', true) →
      btShift c a' bc fc → tvShift c key (y :: t) s bc fc := by
    intro key s bc fc y t a' r bc2 fc2 hbt hinf ih b2 f2
    rw [tryValues_ok c key t _ _ hinf, tryValues_ok c key t _ _ hinf,
      ih b2 f2, hbt]
  have h8 : ∀ (key : V) (s : Assign V α) (bc fc : Nat) (y : α) (t : List α)
      (a' : Assign V α) (bc2 fc2 : Nat),
      c.backtrack a' bc fc = (SearchResult.exc, bc2, fc2) →
      c.inference (s.update key [y]) (c.get_all_neighboring_arcs key) =
        some (a', true) →
      btShift c a' bc fc → tvShift c key (y :: t) s bc fc := by
    intro key s bc fc y t a' bc2 fc2 hbt hinf ih b2 f2
    rw [tryValues_ok c key t _ _ hinf, tryValues_ok c key t _ _ hinf,
      ih b2 f2, hbt]
  have h9 : ∀ (key : V) (s : Assign V α) (bc fc : Nat) (y : α) (t : List α)
      (a' : Assign V α) (bc2 fc2 : Nat),
      c.backtrack a' bc fc = (SearchResult.failure, bc2, fc2) →
      c.inference (s.update key [y]) (c.get_all_neighboring_arcs key) =
        some (a', true) →
      btShift c a' bc fc → tvShift c key t a' bc2 fc2 →
      tvShift c key (y :: t) s bc fc := by
    intro key s bc fc y t a' bc2 fc2 hbt hinf ih1 ih2 b2 f2
    rw [tryValues_ok c key t _ _ hinf, tryValues_ok c key t _ _ hinf,
      ih1 b2 f2, hbt]
    exact ih2 b2 f2
  have h10 : ∀ (key : V) (s : Assign V α) (bc fc : Nat) (y : α) (t : List α)
      (a' : Assign V α) (revised : Bool),
      c.inference (s.update key [y]) (c.get_all_neighboring_arcs key) =
        some (a', revised) →
      ¬ revised = true → tvShift c key t a' bc fc →
      tvShift c key (y :: t) s bc fc := by
    intro key s bc fc y t a' revised hinf hr ih b2 f2
    have hinf' : c.inference (s.update key [y])
        (c.get_all_neighboring_arcs key) = some (a', false) := by
      cases revised
      · exact hinf
      · exact absurd rfl hr
    rw [tryValues_fail c key t _ _ hinf', tryValues_fail c key t _ _ hinf']
    exact ih b2 f2
  exact ⟨fun a bc fc => CSP.backtrack.induct c (btShift c) (tvShift c)
      h1 h2 h3 h4 h5 h6 h7 h8 h9 h10 a bc fc,
    fun key vs s bc fc => tryValues.induct c (btShift c) (tvShift c)
      h1 h2 h3 h4 h5 h6 h7 h8 h9 h10 key vs s bc fc⟩

/-- The legal-pair list registered for the ordered pair `(i, j)`:
`self.constraints[i][j]` as an optional value. -/
def constraintPairs (c : CSP V α) (i j : V) : Option (List (α × α)) :=
  match lookupA c.constraints i with
  | none => none
  | some ci => lookupA ci j

/-- A total assignment `f` of one value per variable satisfies the model:
each variable's value lies in its registered domain and every registered
constraint pair is legal. This is the specification-side notion of a
satisfying assignment used by the soundness and completeness claims. -/
def satisfies (c : CSP V α) (f : V → α) : Prop :=
  (∀ v ∈ c.vars, f v ∈ (c.domains.lookup v).getD []) ∧
    (∀ p ∈ c.get_all_arcs,
      (f p.1, f p.2) ∈ (constraintPairs c p.1 p.2).getD [])

/-- The entries of a found solution, if any. -/
def SearchResult.solEntries : SearchResult V α → Option (List (V × List α))
  | SearchResult.found a => some a.entries
  | _ => none

end Embedding

section Models

/-- Model for claim C1: variables `A = 0` with domain `[5, 6]` and `B = 1`
with domain `[1, 2]`; constraint `(A, B)` keeps the pairs
`(5, 1), (6, 1), (6, 2)` (so `(5, 2)` is illegal) and constraint `(B, A)`
keeps only `(2, 5)`. Built through `add_variable` and
`add_constraint_one_way` exactly as a caller of the Python API would. -/
def M1 : CSP Nat Nat :=
  ((((CSP.init.add_variable 0 [5, 6]).add_variable 1
        [1, 2]).add_constraint_one_way 0 1
      (fun x y => decide ((x, y) ∈ [((5 : Nat), (1 : Nat)), (6, 1), (6, 2)]))).bind
    (fun c => c.add_constraint_one_way 1 0
      (fun x y => decide ((x, y) ∈ [((2 : Nat), (5 : Nat))])))).getD CSP.init

theorem M1_def : M1.vars = [0, 1] ∧
    M1.domains.entries = [(0, [5, 6]), (1, [1, 2])] ∧
    M1.constraints =
      [(0, [(1, [(5, 1), (6, 1), (6, 2)])]), (1, [(0, [(2, 5)])])] :=
  ⟨rfl, rfl, rfl⟩

/-- Model for claim C2: like `M1` but constraint `(B, A)` keeps
`(1, 6)` and `(2, 5)`. The assignment `A = 6, B = 1` satisfies every
registered constraint, so the model is satisfiable. -/
def M2 : CSP Nat Nat :=
  ((((CSP.init.add_variable 0 [5, 6]).add_variable 1
        [1, 2]).add_constraint_one_way 0 1
      (fun x y => decide ((x, y) ∈ [((5 : Nat), (1 : Nat)), (6, 1), (6, 2)]))).bind
    (fun c => c.add_constraint_one_way 1 0
      (fun x y => decide ((x, y) ∈ [((1 : Nat), (6 : Nat)), (2, 5)])))).getD
    CSP.init

theorem M2_def : M2.vars = [0, 1] ∧
    M2.domains.entries = [(0, [5, 6]), (1, [1, 2])] ∧
    M2.constraints =
      [(0, [(1, [(5, 1), (6, 1), (6, 2)])]), (1, [(0, [(1, 6), (2, 5)])])] :=
  ⟨rfl, rfl, rfl⟩

/-- Model for claim C3: variables `A = 0` and `B = 1`, both with domain
`[1]`, inequality constraint registered both ways; both legal-pair lists
filter down to the empty list, so AC-3 wipes a domain out immediately. -/
def M3 : CSP Nat Nat :=
  ((((CSP.init.add_variable 0 [1]).add_variable 1 [1]).add_constraint_one_way
      0 1 (fun x y => decide (x ≠ y))).bind
    (fun c => c.add_constraint_one_way 1 0 (fun x y => decide (x ≠ y)))).getD
    CSP.init

theorem M3_def : M3.vars = [0, 1] ∧
    M3.domains.entries = [(0, [1]), (1, [1])] ∧
    M3.constraints = [(0, [(1, [])]), (1, [(0, [])])] :=
  ⟨rfl, rfl, rfl⟩

/-- Model for claims C5 and C6: `A = 0` with domain `[1, 2, 3]` and `B = 1`
with domain `[3]`; both constraint directions keep only the pair `(3, 3)`. -/
def M6 : CSP Nat Nat :=
  ((((CSP.init.add_variable 0 [1, 2, 3]).add_variable 1
        [3]).add_constraint_one_way 0 1
      (fun x y => decide (x = 3 ∧ y = 3))).bind
    (fun c => c.add_constraint_one_way 1 0
      (fun x y => decide (x = 3 ∧ y = 3)))).getD CSP.init

theorem M6_def : M6.vars = [0, 1] ∧
    M6.domains.entries = [(0, [1, 2, 3]), (1, [3])] ∧
    M6.constraints = [(0, [(1, [(3, 3)])]), (1, [(0, [(3, 3)])])] :=
  ⟨rfl, rfl, rfl⟩

/-- The assignment `M6` is left in after one global AC-3 pass: the
enumerate-and-pop loop removed `1` from `A` but skipped the (equally
unsupported) value `2`. -/
def A6 : Assign Nat Nat := ⟨[(0, [2, 3]), (1, [3])], by simp⟩

/-- Model for claim C7: a single variable `A = 0` with the singleton domain
`[1]` and no constraints; one `backtrack` call suffices to solve it. -/
def M7 : CSP Nat Nat := CSP.init.add_variable 0 [1]

/-- Model for claim C8: variables `A = 0` and `B = 1` with a registered
constraint from `A` to `B` that keeps every pair. -/
def M8 : CSP Nat Nat :=
  (((CSP.init.add_variable 0 [1]).add_variable 1 [2]).add_constraint_one_way
    0 1 (fun x y => true)).getD CSP.init

theorem M8_def : M8.vars = [0, 1] ∧
    lookupA M8.constraints 0 = some [(1, [(1, 2)])] :=
  ⟨rfl, rfl⟩

/-- The assignment `M3`'s AC-3 pre-pass leaves behind: `B`'s domain has been
wiped out and the mutation is not rolled back. -/
def A3 : Assign Nat Nat := ⟨[(0, [1]), (1, [])], by simp⟩

/-- Search state for the C4 witness: `A` already fixed to `5`, `B` still
open, as reached inside `M2`'s search after the first assignment. -/
def SB : Assign Nat Nat := ⟨[(0, [5]), (1, [1, 2])], by simp⟩

/-- The state the failed try `B := 1` of the C4 witness leaves behind:
`B`'s domain emptied in place. -/
def SB2 : Assign Nat Nat := ⟨[(0, [5]), (1, [])], by simp⟩

/-- The all-singleton state `M2`'s search ends in. -/
def SBF : Assign Nat Nat := ⟨[(0, [5]), (1, [2])], by simp⟩

end Models

section Claims

/-- Claim C1: soundness of solve — the spec states that any Solution returned
by `backtracking_search` assigns exactly one value per variable and satisfies
every registered constraint `(i, j)`. REFUTED on the code: on model `M1`
(variables `0, 1`; asymmetric constraints) the solver returns the
all-singleton assignment `0 := 6, 1 := 2` with one `backtrack` call, yet the
registered constraint `(1, 0)` has legal pairs `[(2, 5)]` and the value pair
`(2, 6)` is not among them. The root cause is that `inference` re-enqueues
arcs pointing into the revised variable instead of arcs into its neighbors,
so the pre-pass never re-checks variable `1` after variable `0` lost the
supporting value `5`. -/
theorem c1_soundness_violated_at_M1 :
    (M1.backtracking_search 0 0).1.solEntries = some [(0, [6]), (1, [2])] ∧
      (M1.backtracking_search 0 0).2 = (1, 0) ∧
      constraintPairs M1 1 0 = some [(2, 5)] ∧
      ((2 : Nat), (6 : Nat)) ∉ [((2 : Nat), (5 : Nat))] := by
  refine ⟨?_, ?_, rfl, by decide⟩ <;>
  simp [M1, CSP.backtracking_search, CSP.backtrack, tryValues, CSP.inference,
    inferenceLoop, CSP.revise, reviseLoop, hasSupport,
    select_unassigned_variable, listSort, insertSorted, lookupA, updateA,
    Assign.update, Assign.lookup, CSP.get_all_arcs,
    CSP.get_all_neighboring_arcs, CSP.init, CSP.add_variable,
    CSP.add_constraint_one_way, get_all_possible_pairs,
    SearchResult.solEntries]

/-- Claim C2: completeness of solve — the spec states that whenever some
assignment of one value per variable satisfies every registered constraint,
`backtracking_search` returns a Solution (an all-singleton assignment
satisfying every registered constraint). REFUTED on the code: model `M2` is
satisfied by `0 := 6, 1 := 1`, but the solver returns the assignment
`0 := 5, 1 := 2` (after 3 `backtrack` calls, 0 failures), which violates the
registered constraint `(0, 1)` — `(5, 2)` is not among its legal pairs — so
no Solution in the spec's sense is returned on a satisfiable model. Same
root cause as C1: forward checking via `inference` only ever revises the
just-assigned variable, never its neighbors. -/
theorem c2_completeness_violated_at_M2 :
    satisfies M2 (fun v => if v = 0 then 6 else 1) ∧
      (M2.backtracking_search 0 0).1.solEntries = some [(0, [5]), (1, [2])] ∧
      (M2.backtracking_search 0 0).2 = (3, 0) ∧
      constraintPairs M2 0 1 = some [(5, 1), (6, 1), (6, 2)] ∧
      ((5 : Nat), (2 : Nat)) ∉ [((5 : Nat), (1 : Nat)), (6, 1), (6, 2)] := by
  have hpre : M2.inference M2.domains M2.get_all_arcs =
      some (M2.domains, true) := by
    simp [M2, CSP.inference, inferenceLoop, CSP.revise, reviseLoop, hasSupport,
      lookupA, updateA, Assign.update, Assign.lookup, CSP.get_all_arcs,
      CSP.get_all_neighboring_arcs, CSP.init, CSP.add_variable,
      CSP.add_constraint_one_way, get_all_possible_pairs]
  have hinf5 : M2.inference (M2.domains.update 0 [5])
      (M2.get_all_neighboring_arcs 0) = some (SB, true) := by
    simp [M2, SB, CSP.inference, inferenceLoop, CSP.revise, reviseLoop,
      hasSupport, lookupA, updateA, Assign.update, Assign.lookup,
      CSP.get_all_neighboring_arcs, CSP.init, CSP.add_variable,
      CSP.add_constraint_one_way, get_all_possible_pairs]
  have hinfB1 : M2.inference (SB.update 1 [1])
      (M2.get_all_neighboring_arcs 1) = some (SB2, false) := by
    simp [M2, SB, SB2, CSP.inference, inferenceLoop, CSP.revise, reviseLoop,
      hasSupport, lookupA, updateA, Assign.update, Assign.lookup,
      CSP.get_all_neighboring_arcs, CSP.init, CSP.add_variable,
      CSP.add_constraint_one_way, get_all_possible_pairs]
  have hinfB2 : M2.inference (SB2.update 1 [2])
      (M2.get_all_neighboring_arcs 1) = some (SBF, true) := by
    simp [M2, SB2, SBF, CSP.inference, inferenceLoop, CSP.revise, reviseLoop,
      hasSupport, lookupA, updateA, Assign.update, Assign.lookup,
      CSP.get_all_neighboring_arcs, CSP.init, CSP.add_variable,
      CSP.add_constraint_one_way, get_all_possible_pairs]
  have hbt2 : M2.backtrack SBF 2 0 = (SearchResult.found SBF, 3, 0) :=
    backtrack_goal M2 2 0 (by decide)
  have htv1 : tryValues M2 1 (listSort [1, 2]) SB 2 0 =
      (SearchResult.found SBF, 3, 0) := by
    have hs : listSort [1, 2] = [1, 2] := rfl
    rw [hs, tryValues_fail M2 1 [2] 2 0 hinfB1,
      tryValues_ok M2 1 [] 2 0 hinfB2, hbt2]
  have hbtSB : M2.backtrack SB 1 0 = (SearchResult.found SBF, 3, 0) := by
    rw [backtrack_step M2 1 0 (by decide) (by rfl) (by rfl)]
    exact htv1
  have htv0 : tryValues M2 0 (listSort [5, 6]) M2.domains 1 0 =
      (SearchResult.found SBF, 3, 0) := by
    have hs : listSort [5, 6] = [5, 6] := rfl
    rw [hs, tryValues_ok M2 0 [6] 1 0 hinf5, hbtSB]
  have hsolve : M2.backtracking_search 0 0 =
      (SearchResult.found SBF, 3, 0) := by
    unfold CSP.backtracking_search
    rw [hpre]
    show M2.backtrack M2.domains 0 0 = (SearchResult.found SBF, 3, 0)
    rw [backtrack_step M2 0 0 (by decide) (by rfl) (by rfl)]
    exact htv0
  refine ⟨by unfold satisfies constraintPairs; decide, ?_, ?_, rfl, by decide⟩
  · rw [hsolve]
    rfl
  · rw [hsolve]

/-- Claim C3: unsatisfiability signalling — the spec states that when the
global AC-3 pre-pass empties a domain, solve returns the explicit failure
value without entering the backtracking search, and never raises an
exception for an unsolvable instance. REFUTED on the code: on model `M3`
(`A = {1}`, `B = {1}`, inequality both ways) the pre-pass does detect the
wipeout — `inference` returns the failure flag with `B`'s domain emptied —
but `backtracking_search` discards that return value, calls `backtrack` on
the mutated assignment anyway (the call counter reaches 1), and the run ends
in the uncaught `IndexError` that `select_unassigned_variable` raises when
no domain has more than one value. -/
theorem c3_wipeout_raises_instead_of_failure :
    (M3.inference M3.domains M3.get_all_arcs).map
        (fun r => (r.1.entries, r.2)) = some ([(0, [1]), (1, [])], false) ∧
      M3.backtracking_search 0 0 = (SearchResult.exc, 1, 0) := by
  have hpre : M3.inference M3.domains M3.get_all_arcs = some (A3, false) := by
    simp [M3, A3, CSP.inference, inferenceLoop, CSP.revise, reviseLoop,
      hasSupport, lookupA, updateA, Assign.update, Assign.lookup,
      CSP.get_all_arcs, CSP.get_all_neighboring_arcs, CSP.init,
      CSP.add_variable, CSP.add_constraint_one_way, get_all_possible_pairs]
  constructor
  · rw [hpre]
    rfl
  · unfold CSP.backtracking_search
    rw [hpre]
    show M3.backtrack A3 0 0 = (SearchResult.exc, 1, 0)
    rw [backtrack_sel_exc M3 0 0 (by decide) (by rfl)]

/-- Claim C4: branch isolation — in `backtrack`, when AC-3 fails for one
candidate value, none of the domain removals made during that failed try (to
any variable) are visible when the next candidate value is tried or after
the call backtracks. CONFIRMED: the arcs handed to `inference` all point into
the selected variable `key`, and so do all arcs it re-enqueues, so a failed
try only ever mutates `key`'s own domain entry; since every iteration
overwrites that entry with its own singleton, continuing the candidate loop
from the state a failed AC-3 run left behind is literally equal to
continuing it from the untouched snapshot — each candidate is tried on
`snapshot[key := [value]]` exactly. The parent's state is a separate value
(Python deep-copies at `backtrack` entry), so nothing survives past a failed
branch. -/
theorem c4_branch_isolation {V α : Type} [DecidableEq V] [LinearOrder α]
    {c : CSP V α} {key : V} {v : α} {s s2 : Assign V α}
    (hinf : c.inference (s.update key [v]) (c.get_all_neighboring_arcs key) =
      some (s2, false)) (vs : List α) (bc fc : Nat) :
    tryValues c key vs s2 bc fc = tryValues c key vs s bc fc := by
  have hupd : ∀ d, s2.update key d = s.update key d := by
    intro d
    have hfr := inferenceLoop_frame key
      (fun p hp => neighboring_arcs_target c key p hp) hinf d
    rw [hfr, Assign.update_update]
  cases vs with
  | nil => rw [tryValues_nil, tryValues_nil]
  | cons w ws =>
    conv_lhs => rw [tryValues]
    conv_rhs => rw [tryValues]
    rw [hupd [w]]

/-- Witness for C4 at a concrete input: inside `M2`'s search, with `A`
already fixed to `5`, the try `B := 1` fails AC-3 leaving `B`'s domain
emptied (`SB2`), and the loop over the remaining candidate `[2]` behaves
identically from the mutated state and from the snapshot. -/
theorem c4_branch_isolation_witness :
    M2.inference (SB.update 1 [1]) (M2.get_all_neighboring_arcs 1) =
        some (SB2, false) ∧
      tryValues M2 1 [2] SB2 5 7 = tryValues M2 1 [2] SB 5 7 := by
  have hinf : M2.inference (SB.update 1 [1]) (M2.get_all_neighboring_arcs 1) =
      some (SB2, false) := by
    simp [M2, SB, SB2, CSP.inference, inferenceLoop, CSP.revise, reviseLoop,
      hasSupport, lookupA, updateA, Assign.update, Assign.lookup,
      CSP.get_all_neighboring_arcs, CSP.init, CSP.add_variable,
      CSP.add_constraint_one_way, get_all_possible_pairs]
  exact ⟨hinf, c4_branch_isolation hinf [2] 5 7⟩

/-- Claim C5: revise postcondition — the spec states that after one call the
target's domain contains exactly the values supported by some neighbor value,
every unsupported value being removed in that single call. REFUTED on the
code: on model `M6` (`A = [1, 2, 3]`, `B = [3]`, legal pairs `[(3, 3)]`)
one call to `revise(assignment, 0, 1)` returns the domain `[2, 3]` for `A`
with the revised flag set, yet `2` has no support (`hasSupport` is false for
it): the loop pops the unsupported `1` at index 0 and then steps to index 1,
skipping the value `2` that slid into index 0 — the classic
pop-while-iterating slip, contradicting the function's own docstring. -/
theorem c5_revise_leaves_unsupported_value :
    (M6.revise M6.domains 0 1).map (fun r => (r.1.entries, r.2)) =
        some ([(0, [2, 3]), (1, [3])], true) ∧
      constraintPairs M6 0 1 = some [(3, 3)] ∧
      hasSupport [(3, 3)] [3] false [2, 3] 2 = false := by
  refine ⟨?_, rfl, by decide⟩
  simp [M6, CSP.revise, reviseLoop, hasSupport, lookupA, updateA,
    Assign.update, Assign.lookup, CSP.init, CSP.add_variable,
    CSP.add_constraint_one_way, get_all_possible_pairs]

/-- Claim C6: AC-3 idempotence — the spec states that running the
arc-consistency pass twice in succession yields the same domains as running
it once. REFUTED on the code: on model `M6` the first pass (seeded with all
arcs) leaves `A = [2, 3]` — the skip bug of C5 left the unsupported value
`2` behind, and the shrunken arc is not re-enqueued — while a second
identical pass removes `2`, yielding `A = [3]`. -/
theorem c6_inference_not_idempotent :
    (M6.inference M6.domains M6.get_all_arcs).map
        (fun r => (r.1.entries, r.2)) = some ([(0, [2, 3]), (1, [3])], true) ∧
      (M6.inference A6 M6.get_all_arcs).map (fun r => (r.1.entries, r.2)) =
        some ([(0, [3]), (1, [3])], true) ∧
      ([(0, [2, 3]), (1, [3])] : List (Nat × List Nat)) ≠
        [(0, [3]), (1, [3])] := by
  refine ⟨?_, ?_, by decide⟩ <;>
  simp [M6, A6, CSP.inference, inferenceLoop, CSP.revise, reviseLoop,
    hasSupport, lookupA, updateA, Assign.update, Assign.lookup,
    CSP.get_all_arcs, CSP.get_all_neighboring_arcs, CSP.init,
    CSP.add_variable, CSP.add_constraint_one_way, get_all_possible_pairs]

/-- Counterexample for claim C7: the counters are module-level globals that
are never reset by `backtracking_search` — on the one-variable model `M7`,
a first solve call reports counters `(1, 0)` while a second call (starting
from the globals the first left behind) reports `(2, 0)`, so two successive
calls do not produce identical call counts, refuting the claim as stated.
The returned Solution is identical both times. -/
theorem c7_counters_not_reset_cex :
    (M7.backtracking_search 0 0).2 = (1, 0) ∧
      (M7.backtracking_search 1 0).2 = (2, 0) ∧
      ((1, 0) : Nat × Nat) ≠ (2, 0) ∧
      (M7.backtracking_search 0 0).1.solEntries = some [(0, [1])] ∧
      (M7.backtracking_search 1 0).1.solEntries = some [(0, [1])] := by
  refine ⟨?_, ?_, by decide, ?_, ?_⟩ <;>
  simp [M7, CSP.backtracking_search, CSP.backtrack, tryValues, CSP.inference,
    inferenceLoop, CSP.revise, reviseLoop, hasSupport,
    select_unassigned_variable, listSort, insertSorted, lookupA, updateA,
    Assign.update, Assign.lookup, CSP.get_all_arcs,
    CSP.get_all_neighboring_arcs, CSP.init, CSP.add_variable,
    CSP.add_constraint_one_way, get_all_possible_pairs,
    SearchResult.solEntries]

/-- Claim C7 as amended: the search-call and failure counters are global
state that `backtracking_search` never resets; each invocation adds a
model-determined increment to whatever the counters already hold, and the
result value (Solution, failure or exception) is identical across repeated
invocations — so repeated solve calls agree on everything except the
accumulated counter totals. -/
theorem c7_counters_accumulate {V α : Type} [DecidableEq V] [LinearOrder α]
    (c : CSP V α) (bc fc : Nat) :
    c.backtracking_search bc fc =
      ((c.backtracking_search 0 0).1, bc + (c.backtracking_search 0 0).2.1,
        fc + (c.backtracking_search 0 0).2.2) := by
  unfold CSP.backtracking_search
  cases hinf : c.inference c.domains c.get_all_arcs with
  | none => simp
  | some r =>
    obtain ⟨a1, ok⟩ := r
    show c.backtrack a1 bc fc = ((c.backtrack a1 0 0).1,
      bc + (c.backtrack a1 0 0).2.1, fc + (c.backtrack a1 0 0).2.2)
    have h := (search_counter_shift c).1 a1 0 0 bc fc
    simp only [Nat.zero_add] at h
    rw [h]
    simp [Nat.add_comm]

/-- Counterexample for claim C8: `add_variable` on an already-registered name
neither fails fast nor acts as an idempotent overwrite leaving the variable
registered once — on `M8` (variables `0, 1` and a constraint from `0` to
`1`), re-adding variable `0` appends a second copy of the name to the
variables list and silently resets `constraints[0]` to empty, erasing the
previously registered constraint. -/
theorem c8_duplicate_add_variable_cex :
    (M8.add_variable 0 [1]).vars = [0, 1, 0] ∧
      (M8.add_variable 0 [1]).vars.count 0 = 2 ∧
      lookupA M8.constraints 0 = some [(1, [(1, 2)])] ∧
      lookupA (M8.add_variable 0 [1]).constraints 0 = some [] := by
  refine ⟨rfl, by decide, rfl, rfl⟩

/-- Claim C8 as amended: calling `add_variable` with an already-registered
name never fails and is not idempotent — it appends the name to the
variables list a second time, replaces the stored domain, and resets the
variable's outgoing constraint dict to empty, while constraints registered
from other variables are untouched (so constraints into the re-added
variable silently survive while its outgoing ones are lost). -/
theorem c8_add_variable_overwrites {V α : Type} [DecidableEq V]
    [LinearOrder α] (c : CSP V α) (name : V) (dom : List α)
    (h : name ∈ c.vars) :
    (c.add_variable name dom).vars = c.vars ++ [name] ∧
      (c.add_variable name dom).domains.lookup name = some dom ∧
      lookupA (c.add_variable name dom).constraints name = some [] ∧
      ∀ w, w ≠ name →
        lookupA (c.add_variable name dom).constraints w =
          lookupA c.constraints w := by
  refine ⟨rfl, ?_, ?_, ?_⟩
  · show lookupA (updateA c.domains.entries name dom) name = some dom
    exact lookupA_updateA_self _ _ _
  · exact lookupA_updateA_self _ _ _
  · intro w hw
    exact lookupA_updateA_ne _ _ hw

/-- Witness for the amended C8 at a concrete input: variable `0` is already
registered in `M8`, and re-adding it duplicates the name and clears its
outgoing constraints. -/
theorem c8_add_variable_overwrites_witness :
    (0 : Nat) ∈ M8.vars ∧
      (M8.add_variable 0 [1]).vars = M8.vars ++ [0] ∧
      lookupA (M8.add_variable 0 [1]).constraints 0 = some [] :=
  ⟨by decide, (c8_add_variable_overwrites M8 0 [1] (by decide)).1,
    (c8_add_variable_overwrites M8 0 [1] (by decide)).2.2.1⟩

/-- Claim C9: AC-3 termination — for every model and every initial arc
queue, the queue-driven loop of `inference` cannot run forever. CONFIRMED:
some finite fuel budget always suffices for the explicitly fuelled loop
`inferenceFuel` to finish and agree with `inference` — arcs are re-enqueued
only after a revision that strictly shrank a domain, domains only ever
shrink and are finite, so the loop (including the paths that end in a
wipeout failure or a propagated `KeyError`) always reaches its end. -/
theorem c9_inference_terminates {V α : Type} [DecidableEq V] [LinearOrder α]
    (c : CSP V α) (a : Assign V α) (q : List (V × V)) :
    ∃ n, inferenceFuel c n a q = some (c.inference a q) := by
  show ∃ n, inferenceFuel c n a q = some (inferenceLoop c a q)
  induction a, q using inferenceLoop.induct c with
  | case1 a => exact ⟨1, by rw [inferenceLoop_nil]; rfl⟩
  | case2 a x_j x_i q' hrev =>
    refine ⟨1, ?_⟩
    rw [inferenceLoop_cons_exc c q' hrev]
    simp [inferenceFuel, hrev]
  | case3 a x_j x_i q' a' hdj hrev =>
    refine ⟨1, ?_⟩
    have hdj' : lookupA a'.entries x_i = none := hdj
    rw [inferenceLoop, hrev]
    simp [inferenceFuel, hrev, hdj']
  | case4 a x_j x_i q' a' dj hdj he hrev =>
    refine ⟨1, ?_⟩
    have hdj' : lookupA a'.entries x_i = some dj := hdj
    simp at he
    rw [inferenceLoop_cons_wipe c q' hrev hdj (by simp [he])]
    simp [inferenceFuel, hrev, hdj', he]
  | case5 a x_j x_i q' a' dj hdj he hrev ih =>
    obtain ⟨n, hn⟩ := ih
    refine ⟨n + 1, ?_⟩
    have hdj' : lookupA a'.entries x_i = some dj := hdj
    have hne : dj ≠ [] := by
      intro hc
      rw [hc] at he
      simp at he
    rw [inferenceLoop_cons_cont c q' hrev hdj (by simpa using he)]
    simp [inferenceFuel, hrev, hdj', hne]
    simpa using hn
  | case6 a x_j x_i q' a' revised hrev hr ih =>
    have hrev' : c.revise a x_i x_j = some (a', false) := by
      cases revised
      · exact hrev
      · exact absurd rfl hr
    obtain ⟨n, hn⟩ := ih
    refine ⟨n + 1, ?_⟩
    rw [inferenceLoop_cons_norev c q' hrev']
    simp [inferenceFuel, hrev']
    exact hn

/-- Claim C10 (implicit): `inference` mutates the assignment in place and is
not atomic on failure. CONFIRMED in the value-level rendering of the
mutation: the assignment component that `inference` returns is the state the
caller's dictionary has been mutated into, and whenever the failure value is
returned, that state has some variable's domain left empty while every
domain is a sublist of what it was — the removals made before the wipeout
was detected (including the wipeout itself) are still there, not restored. -/
theorem c10_inference_failure_mutates {V α : Type} [DecidableEq V]
    [LinearOrder α] {c : CSP V α} {a a2 : Assign V α} {q : List (V × V)}
    (h : c.inference a q = some (a2, false)) :
    (∃ v, a2.lookup v = some []) ∧
      List.Forall₂ entShrink a2.entries a.entries :=
  ⟨inferenceLoop_false_empty h, inferenceLoop_entShrink h⟩

/-- Witness for C10 at a concrete input: `M3`'s global pre-pass fails and
hands back the assignment with `B`'s domain wiped out in place. -/
theorem c10_inference_failure_mutates_witness :
    M3.inference M3.domains M3.get_all_arcs = some (A3, false) ∧
      (∃ v, A3.lookup v = some []) ∧
      List.Forall₂ entShrink A3.entries M3.domains.entries := by
  have h : M3.inference M3.domains M3.get_all_arcs = some (A3, false) := by
    simp [M3, A3, CSP.inference, inferenceLoop, CSP.revise, reviseLoop,
      hasSupport, lookupA, updateA, Assign.update, Assign.lookup,
      CSP.get_all_arcs, CSP.get_all_neighboring_arcs, CSP.init,
      CSP.add_variable, CSP.add_constraint_one_way, get_all_possible_pairs]
  exact ⟨h, c10_inference_failure_mutates h⟩

end Claims
